import Mathlib

/-!
Shallow embedding of `TwitterDrasta.py` (darajnish/twitterdrasta), a program
that forwards tweets from a public twitter handle to a telegram channel.

The embedding models the pure core of the program faithfully, definition by
definition:

* `rangem`, `status_str`, `check_status` — the formatter (`TweetDrasta.__rangem`,
  `TweetDrasta.status_str`, `TweetDrasta.__check_status`);
* `get_statuses_since`, `update_status`, `update_hook` — the sync engine
  (`TweetDrasta.__get_statuses_since`, `TweetDrasta.update_status`,
  `App.__update_hook`);
* `digFetch`, `digDrain`, `dig_update` — the bulk importer
  (`TweetDrasta.dig_update`);
* `DB.load_keystore`, `DB.save_keystore`, `DB.save_tmp_value`,
  `DB.get_tmp_value` — the persistence layer (`DBStore`).

External collaborators (the twitter feed API and the telegram delivery API)
are modelled by an environment `Env`: the full user timeline as a list of
posts, newest first (the API serves it in pages of 20), plus failure-injection
flags for the generic (non-rate-limit) API errors the code catches.
Rate-limit errors are invisible here: the code blocks and retries them in
place (`__rtlimt`, `__get_status_by_id`, `send_msg`), so they never alter the
data flow.  Side effects of a sync cycle are recorded as an event trace
(`Ev`): message sends, in-memory cursor advances, sleeps, and keystore
persists.
-/

namespace TwitterDrasta

/-- A user mention inside a tweet, as served in `status.entities['user_mentions']`:
a screen name plus its `indices` (start and end offset) in the raw text. -/
structure Mention where
  screen_name : String
  indices : Nat × Nat
  deriving DecidableEq

/-- A tweet record, carrying the fields `TweetDrasta` reads.  `is_retweet`
models `hasattr(status, 'retweeted_status')`; the `rt_*` fields are the
corresponding fields of `status.retweeted_status`. -/
structure Post where
  id : Nat
  user_screen_name : String
  full_text : String
  truncated : Bool
  is_retweet : Bool
  rt_user_screen_name : String
  rt_full_text : String
  rt_mentions : List Mention
  in_reply_to_screen_name : Option String
  mentions : List Mention
  created_at_str : String
  deriving DecidableEq

/-- `TweetDrasta.RETWEET_EMOJI = chr(0x1F501)`. -/
def RETWEET_EMOJI : String := (Char.ofNat 0x1F501).toString

/-- `TweetDrasta.REPLY_EMOJI = chr(0x21AA)`. -/
def REPLY_EMOJI : String := (Char.ofNat 0x21AA).toString

/-- The arrow `u'→'` used in the retweet header. -/
def ARROW : String := (Char.ofNat 0x2192).toString

/-- Loop body of `TweetDrasta.__rangem`: `prev` is the previously visited
mention (`mentions[i-1]`, `none` on the first iteration), `jk` the running
`(j, k)` pair.  The loop breaks at the first mention whose start offset is
not the previous mention's end offset plus one. -/
def rangemGo : Option Mention → Nat × Nat → List Mention → Nat × Nat
  | _, jk, [] => jk
  | none, _, men :: rest => rangemGo (some men) (men.indices.1, men.indices.2) rest
  | some prev, jk, men :: rest =>
    if prev.indices.2 + 1 ≠ men.indices.1 then jk
    else rangemGo (some men) (jk.1, men.indices.2) rest

/-- `TweetDrasta.__rangem`: the leading contiguous mention run, returned as
the pair `(j, k)` of the run's first start offset and last end offset
(`(0, 0)` for an empty mention list). -/
def rangem (mentions : List Mention) : Nat × Nat :=
  rangemGo none (0, 0) mentions

/-- `TweetDrasta.status_str`: formats one status into the message string.
`none` models an argument that is not a `tweepy.Status` (the function then
returns `''`). -/
def status_str (status : Option Post) : String :=
  match status with
  | none => ""
  | some st =>
    let text := if st.is_retweet then st.rt_full_text else st.full_text
    let core :=
      if st.is_retweet then
        let mentions := st.rt_mentions
        let mn :=
          if mentions.length ≠ 0 then
            " " ++ ARROW ++ " " ++
              String.intercalate " " (mentions.map fun u => "@" ++ u.screen_name)
          else ""
        RETWEET_EMOJI ++ "  <b>" ++ st.rt_user_screen_name ++ mn ++ "</b>\n" ++
          ((text.drop (rangem mentions).2).trim) ++ "\n"
      else if st.in_reply_to_screen_name ≠ none ∧ st.mentions.length ≠ 0 then
        let mn := String.intercalate " " (st.mentions.map fun u => "@" ++ u.screen_name)
        REPLY_EMOJI ++ "  <b>" ++ mn ++ "</b>\n" ++
          ((text.drop (rangem st.mentions).2).trim) ++ "\n"
      else text ++ "\n"
    core ++ "https://twitter.com/" ++ st.user_screen_name ++ "/status/" ++
      toString st.id ++ "\n" ++ st.created_at_str ++ "\n"

/-- The environment: the feed API and its failure injection.  `feed` is the
user's full timeline, newest first; the API serves it in pages of 20
(`tweepy.Cursor(...).iterator`).  `fetchOk = false` makes the initial
`items(20)` fetch of `update_status` raise a generic `tweepy.TweepError`;
`pageFail = some n` makes the fetch of page `n` of a paged iteration raise
one; `sendFail = some n` makes the `n`-th `send_msg` call of a bulk-import
drain raise an unhandled delivery error. -/
structure Env where
  feed : List Post
  fetchOk : Bool
  pageFail : Option Nat
  sendFail : Option Nat
  deriving DecidableEq

/-- Pages of at most 20 posts, structurally recursive on a fuel argument
(callers pass the feed's length, which is always enough fuel). -/
def chunksF : Nat → List Post → List (List Post)
  | 0, _ => []
  | _, [] => []
  | fuel + 1, st :: rest => ((st :: rest).take 20) :: chunksF fuel ((st :: rest).drop 20)

/-- The paged timeline iteration `tweepy.Cursor(self.api.user_timeline, ...)`. -/
def pagesOf (e : Env) : List (List Post) :=
  chunksF e.feed.length e.feed

/-- `TweetDrasta.__get_status_by_id`: fetch one status in full.  A rate limit
is retried in place; any other `tweepy.TweepError` is caught and `None` is
returned, which the model folds into the not-found case. -/
def get_status_by_id (e : Env) (id : Nat) : Option Post :=
  e.feed.find? fun p => p.id == id

/-- `TweetDrasta.__check_status`: re-fetch a status in full if the list
endpoint truncated it or it is a retweet wrapper. -/
def check_status (e : Env) : Option Post → Option Post
  | none => none
  | some st => if st.truncated || st.is_retweet then get_status_by_id e st.id else some st

/-- Inner loop of `TweetDrasta.__get_statuses_since` over one page:
`.inr acc` models the early `return sts` (triggered by `status.id <=
since_id or i >= self.max_rollback`), `.inl (i, acc)` a page processed to
its end. -/
def gssPage (mr v : Nat) : List Post → Nat → List Nat → (Nat × List Nat) ⊕ (List Nat)
  | [], i, acc => .inl (i, acc)
  | st :: rest, i, acc =>
    if st.id ≤ v ∨ mr ≤ i then .inr acc
    else gssPage mr v rest (i + 1) (acc ++ [st.id])

/-- Outer loop of `TweetDrasta.__get_statuses_since` over the pages; `n` is
the index of the next page fetch, which raises a generic `tweepy.TweepError`
when `e.pageFail = some n`. -/
def gssPagesGo (e : Env) (mr v : Nat) : List (List Post) → Nat → Nat → List Nat → Except Unit (List Nat)
  | [], _, _, acc => .ok acc
  | pg :: rest, n, i, acc =>
    if e.pageFail = some n then .error ()
    else
      match gssPage mr v pg i acc with
      | .inr acc' => .ok acc'
      | .inl (i', acc') => gssPagesGo e mr v rest (n + 1) i' acc'

/-- `TweetDrasta.__get_statuses_since`: page backward through the feed
collecting the ids of statuses strictly newer than `since`, stopping on
reaching `since` or on having collected `mr` (`max_rollback`) ids.
`.error ()` models an uncaught `tweepy.TweepError` from a page fetch. -/
def get_statuses_since (e : Env) (mr : Nat) (since : Option Nat) : Except Unit (List Nat) :=
  match since with
  | none => .ok []
  | some v => gssPagesGo e mr v (pagesOf e) 0 0 []

/-- One observable side effect of the engine: a channel message send, an
in-memory cursor advance (`self.last_statusid = ...`), a `sleep`, or a
keystore persist (`dbstore.save_keystore`). -/
inductive Ev where
  | send (msg : String)
  | setCursor (id : Nat)
  | sleep (secs : Nat)
  | persistCursor (id : Option Nat)
  deriving DecidableEq

/-- The three events of one iteration of the fast-path loop of
`update_status`: send the (completeness-checked) status, advance the cursor,
sleep 3 seconds. -/
def fastTriple (e : Env) (st : Post) : List Ev :=
  [Ev.send (status_str (check_status e (some st))), Ev.setCursor st.id, Ev.sleep 3]

/-- The three events of one iteration of the rollback loop of
`update_status`: send the individually re-fetched status (no further
completeness check), advance the cursor, sleep 3 seconds. -/
def rollTriple (st : Post) : List Ev :=
  [Ev.send (status_str (some st)), Ev.setCursor st.id, Ev.sleep 3]

/-- The fast-path loop `for status in reversed(recent_status[:k])` of
`update_status`, given the posts to forward in iteration order; returns the
final cursor and the event trace. -/
def forwardChecked (e : Env) : Option Nat → List Post → Option Nat × List Ev
  | cur, [] => (cur, [])
  | _, st :: rest =>
    let r := forwardChecked e (some st.id) rest
    (r.1, fastTriple e st ++ r.2)

/-- The rollback loop `for status_id in reversed(...)` of `update_status`,
given the collected ids in iteration order: each id is re-fetched
individually; a failed fetch (`if status:` false) forwards nothing and
leaves the cursor alone. -/
def forwardByIds (e : Env) : Option Nat → List Nat → Option Nat × List Ev
  | cur, [] => (cur, [])
  | cur, sid :: rest =>
    match get_status_by_id e sid with
    | none => forwardByIds e cur rest
    | some st =>
      let r := forwardByIds e (some st.id) rest
      (r.1, rollTriple st ++ r.2)

/-- `TweetDrasta.update_status` (one `syncOnce` cycle).  Result: the new
`last_statusid`, the event trace, and whether a generic `tweepy.TweepError`
was caught by the surrounding `except` (the cycle then aborts silently).
`.error ()` models the one uncaught exception of this function: the
`IndexError` of `recent_status[0]` on a cold start against an empty feed. -/
def update_status (e : Env) (mr : Nat) (last : Option Nat) :
    Except Unit (Option Nat × List Ev × Bool) :=
  if e.fetchOk then
    let recent := e.feed.take 20
    let ids := recent.map Post.id
    match last with
    | none =>
      match recent with
      | [] => .error ()
      | st :: _ =>
        .ok (some st.id, [Ev.send (status_str (check_status e (some st))), Ev.setCursor st.id], false)
    | some v =>
      if v ∈ ids then
        let r := forwardChecked e (some v) ((recent.take (ids.indexOf v)).reverse)
        .ok (r.1, r.2, false)
      else
        match get_statuses_since e mr (some v) with
        | .error _ => .ok (some v, [], true)
        | .ok sts =>
          let r := forwardByIds e (some v) sts.reverse
          .ok (r.1, r.2, false)
  else .ok (last, [], true)

/-- `App.__update_hook`: run one sync cycle, then write the (possibly
advanced) cursor to the keystore — one persist per cycle, after the cycle. -/
def update_hook (e : Env) (mr : Nat) (last : Option Nat) :
    Except Unit (Option Nat × List Ev) :=
  match update_status e mr last with
  | .error u => .error u
  | .ok (c, evs, _) => .ok (c, evs ++ [Ev.persistCursor c])

/-- Is this event a message send? -/
def isSendEv : Ev → Bool
  | .send _ => true
  | _ => false

/-- Is this event a keystore persist? -/
def isPersistEv : Ev → Bool
  | .persistCursor _ => true
  | _ => false

/-- The successive values the in-memory cursor is set to during a trace. -/
def cursorSets (evs : List Ev) : List Nat :=
  evs.filterMap fun ev =>
    match ev with
    | Ev.setCursor i => some i
    | _ => none

/-- A cycle outcome that returned normally, forwarded nothing, and left the
cursor at `cur`. -/
def idleCycle (cur : Option Nat) : Except Unit (Option Nat × List Ev × Bool) → Prop
  | .error _ => False
  | .ok (c, evs, _) => c = cur ∧ evs.countP isSendEv = 0

/-- Store or update one row of the `tmp` staging table
(`DBStore.save_tmp_value`); each value is kept as the list of rendered
strings its JSON string encodes. -/
def stgSet : List (Nat × List String) → Nat → List String → List (Nat × List String)
  | [], k, v => [(k, v)]
  | (k', v') :: rest, k, v =>
    if k' = k then (k, v) :: rest else (k', v') :: stgSet rest k v

/-- Read one row of the `tmp` staging table (`DBStore.get_tmp_value`);
`none` when the row is missing (the source then returns `None`). -/
def stgGet (stg : List (Nat × List String)) (k : Nat) : Option (List String) :=
  (stg.find? fun p => p.1 == k).map fun p => p.2

/-- `DBStore.drop_tmp`: drop the whole staging table. -/
def drop_tmp (_ : List (Nat × List String)) : List (Nat × List String) := []

/-- State after the fetch phase of `dig_update`: pages saved (`i`), the
`last_statusid` candidate set from the first page, the running terminal id
(`last`), the staging table, and whether a page fetch raised a
`tweepy.TweepError`. -/
structure FetchOut where
  pagesDone : Nat
  cursor : Option Nat
  last : Option Nat
  stg : List (Nat × List String)
  failed : Bool
  deriving DecidableEq

/-- Fetch phase of `TweetDrasta.dig_update`: page through the feed, render
each page (trimmed to the `r = count % 20` remaining posts once `f =
count // 20` pages are behind, when not unbounded), and stage it under the
next page-sequence key; stop after page `f` when not unbounded.  The
comparison `f - i <= 0` of the source is `f ≤ i` (Python ints).  The
`statuses[0]`/`statuses[-1]` subscripts are total here via `head?`/
`getLast?`; pages are never empty. -/
def digFetch (e : Env) (all : Bool) (f r : Nat) :
    List (List Post) → Nat → Option Nat → Option Nat → List (Nat × List String) → FetchOut
  | [], i, cursor, last, stg => ⟨i, cursor, last, stg, false⟩
  | pg :: rest, i, cursor, last, stg =>
    if e.pageFail = some i then ⟨i, cursor, last, stg, true⟩
    else
      let pg' := if all = false ∧ f ≤ i ∧ 0 < r then pg.take r else pg
      let stx := pg'.map fun st => status_str (check_status e (some st))
      let i' := i + 1
      let last' := (pg'.getLast?).elim last fun st => some st.id
      let cursor' := if i' = 1 then (pg'.head?).elim cursor fun st => some st.id else cursor
      let stg' := stgSet stg i' stx
      if all = false ∧ f ≤ i' then ⟨i', cursor', last', stg', false⟩
      else digFetch e all f r rest i' cursor' last' stg'

/-- Outcome of (part of) the drain phase of `dig_update`: the messages
delivered, the running send counter, and whether it ran to completion
(`ok = false` models an uncaught exception mid-drain). -/
structure DrainOut where
  sends : List String
  sent : Nat
  ok : Bool
  deriving DecidableEq

/-- The send loop `for st in reversed(stx)` of the drain phase; the `sc`-th
overall `send_msg` call raises an unhandled delivery error when
`e.sendFail = some sc`. -/
def sendRun (e : Env) : List String → Nat → DrainOut
  | [], sc => ⟨[], sc, true⟩
  | st :: rest, sc =>
    if e.sendFail = some sc then ⟨[], sc, false⟩
    else
      let r := sendRun e rest (sc + 1)
      ⟨st :: r.sends, r.sent, r.ok⟩

/-- Drain phase of `dig_update` (`while i > 0`): read staged pages from the
highest sequence number down to 1, forwarding each page's strings
oldest-to-newest (reversed).  A missing row makes `json.loads(None)` raise
an uncaught `TypeError` (`ok = false`). -/
def digDrain (e : Env) (stg : List (Nat × List String)) : Nat → Nat → List String → DrainOut
  | 0, sc, acc => ⟨acc, sc, true⟩
  | j + 1, sc, acc =>
    match stgGet stg (j + 1) with
    | none => ⟨acc, sc, false⟩
    | some stx =>
      let r := sendRun e stx.reverse sc
      if r.ok then digDrain e stg j r.sent (acc ++ r.sends)
      else ⟨acc ++ r.sends, r.sent, false⟩

deriving instance DecidableEq for Except

/-- Outcome of `TweetDrasta.dig_update`: the returned terminal id (`.error`
when an exception propagates out), the in-memory `last_statusid` afterwards,
the messages delivered, and the staging table's final contents. -/
structure DigOut where
  result : Except Unit (Option Nat)
  cursor : Option Nat
  sends : List String
  staging : List (Nat × List String)
  deriving DecidableEq

/-- `TweetDrasta.dig_update`: the one-shot bulk import.  Refuses (an early
`return None`) when the database is not ready; otherwise fetch-and-stage,
then drain, with `finally: dbstore.drop_tmp()` clearing the staging table on
every path out of the `try`.  A `tweepy.TweepError` of the fetch phase is
"caught" by an `except` whose body calls `self.logger.exception()` without
a message — itself a `TypeError` — so that path still propagates an
exception after the `finally` runs. -/
def dig_update (e : Env) (ready : Bool) (count : Nat) (all : Bool)
    (cur0 : Option Nat) (stg0 : List (Nat × List String)) : DigOut :=
  if ready = false then ⟨.ok none, cur0, [], stg0⟩
  else
    let fo := digFetch e all (count / 20) (count % 20) (pagesOf e) 0 cur0 none stg0
    if fo.failed then ⟨.error (), fo.cursor, [], drop_tmp fo.stg⟩
    else
      let dr := digDrain e fo.stg fo.pagesDone 0 []
      if dr.ok then ⟨.ok fo.last, fo.cursor, dr.sends, drop_tmp fo.stg⟩
      else ⟨.error (), fo.cursor, dr.sends, drop_tmp fo.stg⟩

/-- Store or update one key of the `keystore` table. -/
def ksSet : List (String × String) → String → String → List (String × String)
  | [], k, v => [(k, v)]
  | (k', v') :: rest, k, v =>
    if k' = k then (k, v) :: rest else (k', v') :: ksSet rest k v

/-- The state a `DBStore` object governs: the `ready` flag set by the
connection probe of `DBStore.__init__`, and the two tables. -/
structure DB where
  ready : Bool
  keystore : List (String × String)
  tmp : List (Nat × String)
  deriving DecidableEq

/-- `DBStore.load_keystore`: fill the passed dict from the `keystore` table;
an early `return` leaves it untouched when the store is not ready. -/
def DB.load_keystore (db : DB) (values : List (String × String)) : List (String × String) :=
  if db.ready = false then values
  else db.keystore.foldl (fun vs kv => ksSet vs kv.1 kv.2) values

/-- `DBStore.save_keystore`: upsert every pair of the dict into the
`keystore` table; an early `return` when the store is not ready. -/
def DB.save_keystore (db : DB) (values : List (String × String)) : DB :=
  if db.ready = false then db
  else { db with keystore := values.foldl (fun ks kv => ksSet ks kv.1 kv.2) db.keystore }

/-- Upsert one row of the raw `tmp` table. -/
def tmpSet : List (Nat × String) → Nat → String → List (Nat × String)
  | [], k, v => [(k, v)]
  | (k', v') :: rest, k, v =>
    if k' = k then (k, v) :: rest else (k', v') :: tmpSet rest k v

/-- `DBStore.save_tmp_value`: upsert one id-value pair into the `tmp`
table; an early `return` when the store is not ready. -/
def DB.save_tmp_value (db : DB) (id : Nat) (value : String) : DB :=
  if db.ready = false then db
  else { db with tmp := tmpSet db.tmp id value }

/-- `DBStore.get_tmp_value`: read one value from the `tmp` table; an early
`return` (of `None`) when the store is not ready. -/
def DB.get_tmp_value (db : DB) (id : Nat) : Option String :=
  if db.ready = false then none
  else (db.tmp.find? fun p => p.1 == id).map fun p => p.2

/-! ### Proof auxiliaries and concrete instances -/

/-- The collection loop of `__get_statuses_since` run over the flattened
feed; the paged run `gssPagesGo` reduces to this when no page fetch fails,
because the nested `for` visits the pages' posts in feed order. -/
def gssFlat (mr v : Nat) : List Post → Nat → List Nat → List Nat
  | [], _, acc => acc
  | st :: rest, i, acc =>
    if st.id ≤ v ∨ mr ≤ i then acc
    else gssFlat mr v rest (i + 1) (acc ++ [st.id])

/-- A minimal concrete post: id `n`, plain text, no mentions, not a retweet,
not a reply, not truncated. -/
def mkPost (n : Nat) : Post :=
  ⟨n, "u", "t", false, false, "", "", [], none, [], "c"⟩

/-- A concrete feed of `n` posts with ids `n, n-1, ..., 1`, newest first. -/
def feedDesc (n : Nat) : List Post :=
  ((List.range n).reverse).map fun i => mkPost (i + 1)

/-- A concrete mention with the given offsets. -/
def mkMention (a b : Nat) : Mention := ⟨"m", (a, b)⟩

/-- A healthy environment over the given feed: no injected API failures. -/
def envOk (l : List Post) : Env := ⟨l, true, none, none⟩

/-! ### Lemmas about the paged collection loop -/

theorem chunksF_join (fuel : Nat) (l : List Post) (h : l.length ≤ fuel) :
    (chunksF fuel l).flatten = l := by
  induction fuel generalizing l with
  | zero =>
    cases l with
    | nil => rfl
    | cons a t => simp at h
  | succ fuel ih =>
    cases l with
    | nil => rfl
    | cons a t =>
      simp only [chunksF, List.flatten_cons]
      rw [ih ((a :: t).drop 20) (by simp at h ⊢; omega)]
      exact List.take_append_drop 20 (a :: t)

theorem pagesOf_join (e : Env) : (pagesOf e).flatten = e.feed :=
  chunksF_join _ _ le_rfl

theorem gssPage_inr (mr v : Nat) (pg : List Post) (i : Nat) (acc res : List Nat)
    (h : gssPage mr v pg i acc = .inr res) (rest : List Post) :
    gssFlat mr v (pg ++ rest) i acc = res := by
  induction pg generalizing i acc with
  | nil => simp [gssPage] at h
  | cons st tl ih =>
    by_cases hc : st.id ≤ v ∨ mr ≤ i
    · rw [gssPage, if_pos hc] at h
      cases h
      simp only [List.cons_append, gssFlat, if_pos hc]
    · rw [gssPage, if_neg hc] at h
      simpa only [List.cons_append, gssFlat, if_neg hc] using ih _ _ h

theorem gssPage_inl (mr v : Nat) (pg : List Post) (i : Nat) (acc : List Nat)
    (i' : Nat) (acc' : List Nat)
    (h : gssPage mr v pg i acc = .inl (i', acc')) (rest : List Post) :
    gssFlat mr v (pg ++ rest) i acc = gssFlat mr v rest i' acc' := by
  induction pg generalizing i acc with
  | nil =>
    rw [gssPage] at h
    cases h
    rfl
  | cons st tl ih =>
    by_cases hc : st.id ≤ v ∨ mr ≤ i
    · rw [gssPage, if_pos hc] at h
      cases h
    · rw [gssPage, if_neg hc] at h
      simpa only [List.cons_append, gssFlat, if_neg hc] using ih _ _ h

theorem gssPagesGo_ok (e : Env) (mr v : Nat) (pages : List (List Post)) (n i : Nat)
    (acc sts : List Nat) (h : gssPagesGo e mr v pages n i acc = .ok sts) :
    gssFlat mr v pages.flatten i acc = sts := by
  induction pages generalizing n i acc with
  | nil =>
    rw [gssPagesGo] at h
    cases h
    rfl
  | cons pg rest ih =>
    rw [gssPagesGo] at h
    by_cases hf : e.pageFail = some n
    · rw [if_pos hf] at h
      cases h
    · rw [if_neg hf] at h
      rcases hp : gssPage mr v pg i acc with ⟨i', acc'⟩ | acc'
      · rw [hp] at h
        rw [List.flatten_cons, gssPage_inl mr v pg i acc i' acc' hp rest.flatten]
        exact ih _ _ _ h
      · rw [hp] at h
        obtain rfl : acc' = sts := by injection h
        rw [List.flatten_cons]
        exact gssPage_inr mr v pg i acc acc' hp rest.flatten

theorem gssPagesGo_none (e : Env) (mr v : Nat) (pages : List (List Post)) (n i : Nat)
    (acc : List Nat) (hpf : e.pageFail = none) :
    gssPagesGo e mr v pages n i acc = .ok (gssFlat mr v pages.flatten i acc) := by
  induction pages generalizing n i acc with
  | nil => rfl
  | cons pg rest ih =>
    rw [gssPagesGo, if_neg (by simp [hpf])]
    rcases hp : gssPage mr v pg i acc with ⟨i', acc'⟩ | acc'
    · rw [List.flatten_cons, gssPage_inl mr v pg i acc i' acc' hp rest.flatten]
      exact ih (n + 1) i' acc'
    · rw [List.flatten_cons, gssPage_inr mr v pg i acc acc' hp rest.flatten]

theorem gssFlat_eq (mr v : Nat) (l : List Post) (i : Nat) (acc : List Nat) :
    gssFlat mr v l i acc =
      acc ++ ((l.takeWhile fun st => decide (v < st.id)).take (mr - i)).map Post.id := by
  induction l generalizing i acc with
  | nil => simp [gssFlat]
  | cons st rest ih =>
    by_cases hc : st.id ≤ v ∨ mr ≤ i
    · rw [gssFlat, if_pos hc]
      rcases hc with hc | hc
      · rw [List.takeWhile_cons, if_neg (by simp; omega)]
        simp
      · have : mr - i = 0 := by omega
        rw [this]
        simp
    · push_neg at hc
      rw [gssFlat, if_neg (by push_neg; exact hc)]
      rw [ih]
      rw [List.takeWhile_cons, if_pos (by simp; omega)]
      have : mr - i = (mr - (i + 1)) + 1 := by omega
      rw [this, List.take_succ_cons]
      simp

theorem gss_ok_eq (e : Env) (mr v : Nat) (sts : List Nat)
    (h : get_statuses_since e mr (some v) = .ok sts) :
    sts = ((e.feed.takeWhile fun st => decide (v < st.id)).take mr).map Post.id := by
  rw [get_statuses_since] at h
  have := gssPagesGo_ok e mr v (pagesOf e) 0 0 [] sts h
  rw [pagesOf_join, gssFlat_eq] at this
  simpa using this.symm

theorem gss_none_eq (e : Env) (mr v : Nat) (hpf : e.pageFail = none) :
    get_statuses_since e mr (some v) =
      .ok (((e.feed.takeWhile fun st => decide (v < st.id)).take mr).map Post.id) := by
  rw [get_statuses_since, gssPagesGo_none e mr v (pagesOf e) 0 0 [] hpf,
    pagesOf_join, gssFlat_eq]
  simp

/-! ### Lemmas about the forwarding loops -/

theorem forwardChecked_eq (e : Env) (cur : Option Nat) (l : List Post) :
    forwardChecked e cur l =
      ((l.getLast?).elim cur (fun st => some st.id), (l.map (fastTriple e)).flatten) := by
  induction l generalizing cur with
  | nil => rfl
  | cons st rest ih =>
    rw [forwardChecked, ih]
    cases rest with
    | nil => rfl
    | cons st' rest' => simp [List.getLast?_cons]

theorem forwardByIds_resolved (e : Env) (cur : Option Nat) (posts : List Post)
    (h : ∀ p ∈ posts, get_status_by_id e p.id = some p) :
    forwardByIds e cur (posts.map Post.id) =
      ((posts.getLast?).elim cur (fun st => some st.id), (posts.map rollTriple).flatten) := by
  induction posts generalizing cur with
  | nil => rfl
  | cons st rest ih =>
    have hst := h st (List.mem_cons_self st rest)
    simp only [List.map_cons, forwardByIds, hst]
    rw [ih (some st.id) (fun p hp => h p (List.mem_cons_of_mem st hp))]
    cases rest with
    | nil => rfl
    | cons st' rest' => simp [List.getLast?_cons]

theorem forwardByIds_ids (e : Env) (cur : Option Nat) (sids : List Nat)
    (h : ∀ sid ∈ sids, ∃ q, get_status_by_id e sid = some q ∧ q.id = sid) :
    (forwardByIds e cur sids).1 = (sids.getLast?).elim cur some ∧
      cursorSets (forwardByIds e cur sids).2 = sids := by
  induction sids generalizing cur with
  | nil => exact ⟨rfl, rfl⟩
  | cons sid rest ih =>
    obtain ⟨q, hq, hqid⟩ := h sid (List.mem_cons_self sid rest)
    subst hqid
    have ihr := ih (some q.id) (fun s hs => h s (List.mem_cons_of_mem q.id hs))
    simp only [forwardByIds, hq]
    constructor
    · cases rest with
      | nil => simpa using ihr.1
      | cons s' r' => simpa [List.getLast?_cons] using ihr.1
    · have h2 := ihr.2
      simp only [cursorSets] at h2 ⊢
      simp [rollTriple, List.filterMap_append, h2]

theorem cursorSets_fastTriples (e : Env) (l : List Post) :
    cursorSets ((l.map (fastTriple e)).flatten) = l.map Post.id := by
  induction l with
  | nil => rfl
  | cons st rest ih => simp [cursorSets, fastTriple, List.filterMap_append] at ih ⊢; exact ih

theorem cursorSets_rollTriples (l : List Post) :
    cursorSets ((l.map rollTriple).flatten) = l.map Post.id := by
  induction l with
  | nil => rfl
  | cons st rest ih => simp [cursorSets, rollTriple, List.filterMap_append] at ih ⊢; exact ih

theorem countSends_fastTriples (e : Env) (l : List Post) :
    ((l.map (fastTriple e)).flatten).countP isSendEv = l.length := by
  induction l with
  | nil => rfl
  | cons st rest ih => simp [fastTriple, List.countP_append, isSendEv] at ih ⊢; omega

theorem countSends_rollTriples (l : List Post) :
    ((l.map rollTriple).flatten).countP isSendEv = l.length := by
  induction l with
  | nil => rfl
  | cons st rest ih => simp [rollTriple, List.countP_append, isSendEv] at ih ⊢; omega

/-- With pairwise-distinct ids, fetching a feed post's id individually
returns that very post. -/
theorem resolve_of_nodup (e : Env) (hnd : (e.feed.map Post.id).Nodup) :
    ∀ p ∈ e.feed, get_status_by_id e p.id = some p := by
  intro p hp
  rw [get_status_by_id]
  have hsome : (e.feed.find? fun q => q.id == p.id).isSome :=
    List.find?_isSome.mpr ⟨p, hp, by simp⟩
  obtain ⟨q, hq⟩ := Option.isSome_iff_exists.mp hsome
  have hqmem : q ∈ e.feed := List.mem_of_find?_eq_some hq
  have hqid : q.id = p.id := by simpa using List.find?_some hq
  rw [hq]
  exact congrArg some (List.inj_on_of_nodup_map hnd hqmem hp hqid)

/-- Any id taken from the feed resolves to some post carrying that id. -/
theorem resolve_of_mem (e : Env) (sid : Nat) (h : sid ∈ e.feed.map Post.id) :
    ∃ q, get_status_by_id e sid = some q ∧ q.id = sid := by
  obtain ⟨p, hp, rfl⟩ := List.mem_map.mp h
  have hsome : (e.feed.find? fun q => q.id == p.id).isSome :=
    List.find?_isSome.mpr ⟨p, hp, by simp⟩
  obtain ⟨q, hq⟩ := Option.isSome_iff_exists.mp hsome
  exact ⟨q, hq, by simpa using List.find?_some hq⟩

/-! ### An ascent lemma for cursor monotonicity -/

/-- If `l` is strictly descending and every element exceeds `v`, then
`v :: l.reverse` climbs monotonically. -/
theorem chain_of_desc_above (v : Nat) (l : List Nat)
    (hp : l.Pairwise (· > ·)) (ha : ∀ x ∈ l, v ≤ x) :
    List.Chain' (· ≤ ·) (v :: l.reverse) := by
  apply List.Pairwise.chain'
  refine List.Pairwise.cons (fun x hx => ha x (List.mem_reverse.mp hx)) ?_
  exact List.pairwise_reverse.mpr (hp.imp fun h => Nat.le_of_lt h)

/-- In a strictly descending list, the element at index `k` is below every
element of the prefix before it. -/
theorem pairwise_take_lt (l : List Nat) (hp : l.Pairwise (· > ·)) (k : Nat)
    (hk : k < l.length) : ∀ x ∈ l.take k, l.get ⟨k, hk⟩ < x := by
  intro x hx
  rw [List.mem_iff_get] at hx
  obtain ⟨⟨i, hi⟩, rfl⟩ := hx
  have hik : i < k := lt_of_lt_of_le hi (by simp)
  have hil : i < l.length := lt_trans hik hk
  have hgi : (l.take k).get ⟨i, hi⟩ = l.get ⟨i, hil⟩ := by
    simp [List.get_eq_getElem, List.getElem_take]
  rw [hgi]
  exact List.pairwise_iff_get.mp hp ⟨i, hil⟩ ⟨k, hk⟩ hik

theorem head?_take_some (l : List Post) (n : Nat) (st : Post)
    (h : (l.take n).head? = some st) : l.head? = some st := by
  cases n with
  | zero => simp at h
  | succ m => cases l with
    | nil => simp at h
    | cons a t => simpa using h

theorem head?_takeWhile_some (p : Post → Bool) (l : List Post) (st : Post)
    (h : (l.takeWhile p).head? = some st) : l.head? = some st := by
  cases l with
  | nil => simp [List.takeWhile_nil] at h
  | cons a t =>
    rw [List.takeWhile_cons] at h
    by_cases hp : p a
    · rw [if_pos hp] at h
      simpa using h
    · rw [if_neg hp] at h
      simp at h

theorem head?_map_some (l : List Post) (x : Nat) (h : (l.map Post.id).head? = some x) :
    ∃ p, l.head? = some p ∧ p.id = x := by
  cases l with
  | nil => simp at h
  | cons a t =>
    simp only [List.map_cons, List.head?_cons, Option.some.injEq] at h
    exact ⟨a, rfl, h⟩

/-! ### The shape of a sync cycle's outcome -/

/-- Every normally-returning sync cycle either forwards nothing and keeps
the cursor, or leaves the cursor at the id of the feed's newest post. -/
theorem outcome_shape (e : Env) (mr : Nat) (last c : Option Nat) (evs : List Ev) (ab : Bool)
    (h : update_status e mr last = .ok (c, evs, ab)) :
    (c = last ∧ evs = []) ∨
      (∃ hd, e.feed.head? = some hd ∧ c = some hd.id ∧ e.fetchOk = true) := by
  cases last with
  | none =>
    by_cases hf : e.fetchOk = true
    case neg =>
      rw [update_status, if_neg hf] at h
      simp only [Except.ok.injEq, Prod.mk.injEq] at h
      exact Or.inl ⟨h.1.symm, h.2.1.symm⟩
    simp only [update_status] at h
    rw [if_pos hf] at h
    cases hfe : e.feed with
    | nil =>
      rw [hfe] at h
      simp at h
    | cons hd tl =>
      rw [hfe] at h
      simp only [List.take_succ_cons, Except.ok.injEq, Prod.mk.injEq] at h
      exact Or.inr ⟨hd, by simp [hfe], h.1.symm, hf⟩
  | some v =>
    by_cases hf : e.fetchOk = true
    case neg =>
      rw [update_status, if_neg hf] at h
      simp only [Except.ok.injEq, Prod.mk.injEq] at h
      exact Or.inl ⟨h.1.symm, h.2.1.symm⟩
    simp only [update_status] at h
    rw [if_pos hf] at h
    by_cases hin : v ∈ (e.feed.take 20).map Post.id
    · rw [if_pos hin, forwardChecked_eq, List.getLast?_reverse] at h
      simp only [Except.ok.injEq, Prod.mk.injEq] at h
      cases hhd : ((e.feed.take 20).take (((e.feed.take 20).map Post.id).indexOf v)).head? with
      | none =>
        rw [hhd] at h
        have hsl : (e.feed.take 20).take (((e.feed.take 20).map Post.id).indexOf v) = [] :=
          List.head?_eq_none_iff.mp hhd
        rw [hsl] at h
        exact Or.inl ⟨h.1.symm, h.2.1.symm⟩
      | some st =>
        rw [hhd] at h
        exact Or.inr ⟨st, head?_take_some _ _ _ (head?_take_some _ _ _ hhd), h.1.symm, hf⟩
    · rw [if_neg hin] at h
      cases hgss : get_statuses_since e mr (some v) with
      | error u =>
        rw [hgss] at h
        simp only [Except.ok.injEq, Prod.mk.injEq] at h
        exact Or.inl ⟨h.1.symm, h.2.1.symm⟩
      | ok sts =>
        rw [hgss] at h
        have hsts := gss_ok_eq e mr v sts hgss
        have hres : ∀ sid ∈ sts.reverse, ∃ q, get_status_by_id e sid = some q ∧ q.id = sid := by
          intro sid hsid
          apply resolve_of_mem
          rw [List.mem_reverse] at hsid
          rw [hsts] at hsid
          obtain ⟨p, hp, rfl⟩ := List.mem_map.mp hsid
          exact List.mem_map_of_mem Post.id
            (List.Sublist.subset ((List.take_sublist _ _).trans (List.takeWhile_sublist _)) hp)
        obtain ⟨hfst, _⟩ := forwardByIds_ids e (some v) sts.reverse hres
        simp only [Except.ok.injEq, Prod.mk.injEq] at h
        rw [hfst, List.getLast?_reverse] at h
        cases hh : sts.head? with
        | none =>
          rw [List.head?_eq_none_iff] at hh
          subst hh
          simp only [List.reverse_nil, forwardByIds] at h
          exact Or.inl ⟨h.1.symm, h.2.1.symm⟩
        | some s0 =>
          rw [hh] at h
          rw [hsts] at hh
          obtain ⟨p, hp, hpid⟩ := head?_map_some _ _ hh
          refine Or.inr ⟨p, ?_, by rw [← h.1, hpid]; rfl, hf⟩
          exact head?_takeWhile_some _ _ _ (head?_take_some _ _ _ hp)

/-! ### Where the bulk importer leaves the cursor -/

theorem head?_take_pos (l : List Post) (n : Nat) (hn : 0 < n) :
    (l.take n).head? = l.head? := by
  cases n with
  | zero => omega
  | succ m => cases l <;> simp

theorem digFetch_cursor_stable (e : Env) (all : Bool) (f r : Nat) (pages : List (List Post))
    (i : Nat) (cur last : Option Nat) (stg : List (Nat × List String)) (hi : 1 ≤ i) :
    (digFetch e all f r pages i cur last stg).cursor = cur := by
  induction pages generalizing i cur last stg with
  | nil => rfl
  | cons pg rest ih =>
    simp only [digFetch]
    by_cases hpf : e.pageFail = some i
    · rw [if_pos hpf]
    · rw [if_neg hpf]
      rw [if_neg (show ¬ i + 1 = 1 by omega)]
      by_cases hbr : all = false ∧ f ≤ i + 1
      · rw [if_pos hbr]
      · rw [if_neg hbr]
        exact ih (i + 1) cur _ _ (by omega)

theorem digFetch_cursor_start (e : Env) (all : Bool) (f r : Nat) (pages : List (List Post))
    (cur last : Option Nat) (stg : List (Nat × List String)) :
    (digFetch e all f r pages 0 cur last stg).cursor = cur ∨
      ∃ pg rest, pages = pg :: rest ∧
        (digFetch e all f r pages 0 cur last stg).cursor =
          ((if all = false ∧ f ≤ 0 ∧ 0 < r then pg.take r else pg).head?).elim cur
            (fun st => some st.id) := by
  cases pages with
  | nil => exact Or.inl rfl
  | cons pg rest =>
    simp only [digFetch]
    by_cases hpf : e.pageFail = some 0
    · rw [if_pos hpf]
      exact Or.inl rfl
    · rw [if_neg hpf]
      simp only [if_true]
      by_cases hbr : all = false ∧ f ≤ 0 + 1
      · rw [if_pos hbr]
        exact Or.inr ⟨pg, rest, rfl, rfl⟩
      · rw [if_neg hbr]
        rw [digFetch_cursor_stable e all f r rest 1 _ _ _ le_rfl]
        exact Or.inr ⟨pg, rest, rfl, rfl⟩

theorem dig_update_cursor (e : Env) (count : Nat) (all : Bool) (cur0 : Option Nat)
    (stg0 : List (Nat × List String)) :
    (dig_update e true count all cur0 stg0).cursor =
      (digFetch e all (count / 20) (count % 20) (pagesOf e) 0 cur0 none stg0).cursor := by
  rw [dig_update, if_neg (by simp)]
  by_cases h1 : (digFetch e all (count / 20) (count % 20) (pagesOf e) 0 cur0 none stg0).failed = true
  · simp [h1]
  · simp only [Bool.not_eq_true] at h1
    by_cases h2 :
        (digDrain e (digFetch e all (count / 20) (count % 20) (pagesOf e) 0 cur0 none stg0).stg
          (digFetch e all (count / 20) (count % 20) (pagesOf e) 0 cur0 none stg0).pagesDone 0 []).ok = true
    · simp [h1, h2]
    · simp only [Bool.not_eq_true] at h2
      simp [h1, h2]

/-- The bulk importer either leaves the in-memory cursor alone, or sets it
to the id of the feed's newest post. -/
theorem dig_cursor_cases (e : Env) (count : Nat) (all : Bool) (cur0 : Option Nat)
    (stg0 : List (Nat × List String)) :
    (dig_update e true count all cur0 stg0).cursor = cur0 ∨
      ∃ hd, e.feed.head? = some hd ∧
        (dig_update e true count all cur0 stg0).cursor = some hd.id := by
  rw [dig_update_cursor]
  rcases digFetch_cursor_start e all (count / 20) (count % 20) (pagesOf e) cur0 none stg0 with
    hc | ⟨pg, rest, hpg, hc⟩
  · exact Or.inl hc
  · cases hfe : e.feed with
    | nil =>
      have hemp : pagesOf e = [] := by
        rw [pagesOf, hfe]
        rfl
      rw [hemp] at hpg
      cases hpg
    | cons hd tl =>
      have hpghd : pg.head? = some hd := by
        have hpages : pagesOf e = ((hd :: tl).take 20) :: chunksF tl.length ((hd :: tl).drop 20) := by
          rw [pagesOf, hfe]
          rfl
        rw [hpages] at hpg
        have hpg1 : pg = (hd :: tl).take 20 := (List.cons.injEq _ _ _ _ ▸ hpg).1.symm
        rw [hpg1, List.take_succ_cons]
        rfl
      rw [hc]
      by_cases htr : all = false ∧ count / 20 ≤ 0 ∧ 0 < count % 20
      · rw [if_pos htr, head?_take_pos pg (count % 20) htr.2.2, hpghd]
        exact Or.inr ⟨hd, by simp [hfe], rfl⟩
      · rw [if_neg htr, hpghd]
        exact Or.inr ⟨hd, by simp [hfe], rfl⟩

/-- Branch lemma: a rollback whose collection succeeded forwards the
collected ids, oldest first. -/
theorem update_status_rollback_ok (e : Env) (mr v : Nat) (sts : List Nat)
    (hf : e.fetchOk = true) (hnin : v ∉ (e.feed.take 20).map Post.id)
    (hgss : get_statuses_since e mr (some v) = .ok sts) :
    update_status e mr (some v) =
      .ok ((forwardByIds e (some v) sts.reverse).1,
        (forwardByIds e (some v) sts.reverse).2, false) := by
  simp only [update_status]
  rw [if_pos hf, if_neg hnin, hgss]

/-! ### Claim theorems -/

/-- Claim C6, counterexample: on mentions with offsets `(0,2), (4,6), (10,12)`
the extracted leading run does not end at offset 6 — the second mention
already fails the adjacency test (`2 + 1 ≠ 4`), so the run ends at offset 2. -/
theorem C6_counterexample :
    (rangem [mkMention 0 2, mkMention 4 6, mkMention 10 12]).2 ≠ 6 := by decide

/-- Claim C6, amended: on mentions with offsets `(0,2), (4,6), (10,12)` the
leading-contiguous-mention-run extraction returns the run `(0, 2)`: it
includes only the first mention and excludes the second and third, because a
mention joins the run only when its start offset equals the previous end
offset plus one (`2 + 1 = 3 ≠ 4`). -/
theorem C6_range :
    rangem [mkMention 0 2, mkMention 4 6, mkMention 10 12] = (0, 2) := by decide

/-- Claim C10: when the startup connection probe failed (`ready = false`),
loading the keystore, saving the keystore, and writing or reading staging
values are all silent no-ops: they change nothing and return nothing, while
the program keeps running on in-memory state only. -/
theorem C10_persistence_noop (db : DB) (values : List (String × String)) (id : Nat)
    (value : String) (h : db.ready = false) :
    db.load_keystore values = values ∧ db.save_keystore values = db ∧
    db.save_tmp_value id value = db ∧ db.get_tmp_value id = none := by
  refine ⟨?_, ?_, ?_, ?_⟩ <;>
    simp [DB.load_keystore, DB.save_keystore, DB.save_tmp_value, DB.get_tmp_value, h]

/-- Witness for C10 at a concrete not-ready store with non-empty tables. -/
theorem C10_persistence_noop_witness :
    DB.load_keystore ⟨false, [("channel_id", "1")], [(1, "x")]⟩ [("last_statusid", "5")] =
        [("last_statusid", "5")] ∧
    DB.save_keystore ⟨false, [("channel_id", "1")], [(1, "x")]⟩ [("last_statusid", "5")] =
        ⟨false, [("channel_id", "1")], [(1, "x")]⟩ ∧
    DB.save_tmp_value ⟨false, [("channel_id", "1")], [(1, "x")]⟩ 2 "y" =
        ⟨false, [("channel_id", "1")], [(1, "x")]⟩ ∧
    DB.get_tmp_value ⟨false, [("channel_id", "1")], [(1, "x")]⟩ 2 = none :=
  C10_persistence_noop ⟨false, [("channel_id", "1")], [(1, "x")]⟩ [("last_statusid", "5")] 2 "y" rfl

/-- Claim C9: every bulk-import run (database ready), whether it returns
normally or propagates an exception, leaves the staging store dropped —
the `finally` clause guarantees it on every path. -/
theorem C9_staging_dropped (e : Env) (count : Nat) (all : Bool) (cur0 : Option Nat)
    (stg0 : List (Nat × List String)) :
    (dig_update e true count all cur0 stg0).staging = [] := by
  rw [dig_update, if_neg (by simp)]
  by_cases h1 : (digFetch e all (count / 20) (count % 20) (pagesOf e) 0 cur0 none stg0).failed = true
  · simp [h1, drop_tmp]
  · simp only [Bool.not_eq_true] at h1
    by_cases h2 :
        (digDrain e (digFetch e all (count / 20) (count % 20) (pagesOf e) 0 cur0 none stg0).stg
          (digFetch e all (count / 20) (count % 20) (pagesOf e) 0 cur0 none stg0).pagesDone 0 []).ok = true
    · simp [h1, h2, drop_tmp]
    · simp only [Bool.not_eq_true] at h2
      simp [h1, h2, drop_tmp]

/-- Claim C3, behaviour of the code at the failing input: a bulk import of
`targetCount = 45`, `unbounded = false`, over a feed of 45 posts delivers
only 40 rendered messages, not 45 — the fetch loop breaks once `i ≥ 45 // 20
= 2` full pages are staged and never fetches the trailing partial page of 5.
The staging store is empty afterwards. -/
theorem C3_code_behavior :
    ((dig_update (envOk (feedDesc 45)) true 45 false none []).sends.length,
     (dig_update (envOk (feedDesc 45)) true 45 false none []).staging) = (40, []) := by
  decide

/-- Claim C8: a generic (non-rate-limit) feed-API failure during a sync
cycle — at the initial fetch of the 20 recent statuses, or at any page fetch
of the rollback collection — makes the cycle abort with the error caught
(the call still returns normally), zero messages sent, and the cursor left
unchanged. -/
theorem C8_abort_unchanged (e : Env) (mr : Nat) (last : Option Nat)
    (hfail : e.fetchOk = false ∨
      ∃ v, last = some v ∧ v ∉ (e.feed.take 20).map Post.id ∧
        get_statuses_since e mr (some v) = .error ()) :
    update_status e mr last = .ok (last, [], true) := by
  rcases hfail with hf | ⟨v, rfl, hnin, hgss⟩
  · rw [update_status, if_neg (by simp [hf])]
  · by_cases hf : e.fetchOk = true
    · simp only [update_status]
      rw [if_pos hf, if_neg hnin, hgss]
    · rw [update_status, if_neg hf]

/-- Witness for C8: a failing initial fetch leaves the cursor at `some 3`
and sends nothing. -/
theorem C8_abort_unchanged_witness :
    update_status ⟨feedDesc 20, false, none, none⟩ 7 (some 3) = .ok (some 3, [], true) :=
  C8_abort_unchanged ⟨feedDesc 20, false, none, none⟩ 7 (some 3) (Or.inl rfl)

/-- Claim C1, counterexample: a fast-path cycle whose cursor sits at index 2
of the fetched ids sends 2 messages but performs only 1 keystore persist —
the cursor is not persisted after each send (that would require at least as
many persists as sends); it is persisted once, after the cycle. -/
theorem C1_counterexample :
    (update_hook (envOk [mkPost 30, mkPost 20, mkPost 10]) 50 (some 10)).map
        (fun r => (r.2.countP isSendEv, r.2.countP isPersistEv)) = .ok (2, 1) := by
  decide

/-- Claim C1, amended: when `lastPostId` is found among the 20 freshly
fetched ids at index `k`, the cycle forwards exactly the posts at indices
`[0, k)` in oldest-to-newest order (the slice reversed), advancing the
in-memory cursor to each post's id immediately after its send and sleeping
a fixed 3 seconds after each send; the cursor is persisted once, after the
cycle completes, with its final value. -/
theorem C1_fast_path (e : Env) (mr v : Nat)
    (hf : e.fetchOk = true) (hin : v ∈ (e.feed.take 20).map Post.id) :
    update_hook e mr (some v) =
      .ok ((((e.feed.take 20).take (((e.feed.take 20).map Post.id).indexOf v)).head?).elim
            (some v) (fun st => some st.id),
        ((((e.feed.take 20).take (((e.feed.take 20).map Post.id).indexOf v)).reverse.map
            (fastTriple e)).flatten) ++
          [Ev.persistCursor ((((e.feed.take 20).take
              (((e.feed.take 20).map Post.id).indexOf v)).head?).elim
            (some v) (fun st => some st.id))]) := by
  have hus : update_status e mr (some v) =
      .ok ((((e.feed.take 20).take (((e.feed.take 20).map Post.id).indexOf v)).head?).elim
            (some v) (fun st => some st.id),
        ((((e.feed.take 20).take (((e.feed.take 20).map Post.id).indexOf v)).reverse.map
            (fastTriple e)).flatten), false) := by
    simp only [update_status]
    rw [if_pos hf, if_pos hin, forwardChecked_eq, List.getLast?_reverse]
  simp only [update_hook, hus]

/-- Witness for C1 (amended) on a concrete feed of 20 posts with the cursor
at index 2. -/
theorem C1_fast_path_witness :
    update_hook (envOk (feedDesc 20)) 50 (some 18) =
      .ok (((((envOk (feedDesc 20)).feed.take 20).take
              ((((envOk (feedDesc 20)).feed.take 20).map Post.id).indexOf 18)).head?).elim
            (some 18) (fun st => some st.id),
        (((((envOk (feedDesc 20)).feed.take 20).take
              ((((envOk (feedDesc 20)).feed.take 20).map Post.id).indexOf 18)).reverse.map
            (fastTriple (envOk (feedDesc 20)))).flatten) ++
          [Ev.persistCursor (((((envOk (feedDesc 20)).feed.take 20).take
              ((((envOk (feedDesc 20)).feed.take 20).map Post.id).indexOf 18)).head?).elim
            (some 18) (fun st => some st.id))]) :=
  C1_fast_path (envOk (feedDesc 20)) 50 18 (by decide) (by decide)

/-- Claim C2: when `lastPostId = v` is absent from the 20 freshly fetched
ids, the cycle pages backward collecting the ids strictly newer than `v`,
stopping at whichever comes first — reaching `v` (the `takeWhile`) or
having collected `mr` ids (the `take mr`) — and forwards the collected
posts oldest-to-newest, each re-fetched individually; at most `mr` messages
are sent even when the old cursor is never reached, and every forwarded
post is strictly newer than `v`. -/
theorem C2_rollback (e : Env) (mr v : Nat)
    (hf : e.fetchOk = true)
    (hnin : v ∉ (e.feed.take 20).map Post.id)
    (hpf : e.pageFail = none)
    (hnd : (e.feed.map Post.id).Nodup) :
    update_status e mr (some v) = .ok
      (some (((((e.feed.takeWhile fun st => decide (v < st.id)).take mr).head?).map Post.id).getD v),
       (((e.feed.takeWhile fun st => decide (v < st.id)).take mr).reverse.map rollTriple).flatten,
       false) ∧
    ((((e.feed.takeWhile fun st => decide (v < st.id)).take mr).reverse.map
        rollTriple).flatten).countP isSendEv ≤ mr ∧
    (((e.feed.takeWhile fun st => decide (v < st.id)).take mr).all
        fun st => decide (v < st.id)) = true := by
  have hsub : ∀ p ∈ (e.feed.takeWhile fun st => decide (v < st.id)).take mr, p ∈ e.feed :=
    fun p hp =>
      List.Sublist.subset ((List.take_sublist _ _).trans (List.takeWhile_sublist _)) hp
  refine ⟨?_, ?_, ?_⟩
  · have hres : ∀ p ∈ ((e.feed.takeWhile fun st => decide (v < st.id)).take mr).reverse,
        get_status_by_id e p.id = some p := fun p hp =>
      resolve_of_nodup e hnd p (hsub p (List.mem_reverse.mp hp))
    rw [update_status_rollback_ok e mr v _ hf hnin (gss_none_eq e mr v hpf)]
    rw [show (((e.feed.takeWhile fun st => decide (v < st.id)).take mr).map Post.id).reverse =
        ((e.feed.takeWhile fun st => decide (v < st.id)).take mr).reverse.map Post.id from
      (List.map_reverse _ _).symm]
    rw [forwardByIds_resolved e (some v) _ hres]
    rw [List.getLast?_reverse]
    cases hh : ((e.feed.takeWhile fun st => decide (v < st.id)).take mr).head? with
    | none => rfl
    | some st => rfl
  · rw [countSends_rollTriples]
    rw [List.length_reverse]
    exact List.length_take_le mr _
  · rw [List.all_eq_true]
    intro q hq
    exact @List.mem_takeWhile_imp Post (fun st => decide (v < st.id)) e.feed q
      (List.Sublist.subset (List.take_sublist mr _) hq)

/-- Witness for C2 on a concrete feed of ids `25, ..., 1` with the cursor at
`3` (80-posts-back style gap) and `mr = 50`: 22 posts are collected and
forwarded. -/
theorem C2_rollback_witness :
    update_status (envOk (feedDesc 25)) 50 (some 3) = .ok
      (some ((((((envOk (feedDesc 25)).feed.takeWhile
            fun st => decide (3 < st.id)).take 50).head?).map Post.id).getD 3),
       ((((envOk (feedDesc 25)).feed.takeWhile
            fun st => decide (3 < st.id)).take 50).reverse.map rollTriple).flatten,
       false) ∧
    (((((envOk (feedDesc 25)).feed.takeWhile
          fun st => decide (3 < st.id)).take 50).reverse.map
        rollTriple).flatten).countP isSendEv ≤ 50 ∧
    ((((envOk (feedDesc 25)).feed.takeWhile
          fun st => decide (3 < st.id)).take 50).all
        fun st => decide (3 < st.id)) = true :=
  C2_rollback (envOk (feedDesc 25)) 50 3 (by decide) (by decide) (by decide) (by decide)

/-- Claim C4: running a sync cycle a second time against the unchanged feed
forwards zero additional messages, returns normally, and leaves
`lastPostId` exactly where the first cycle left it. -/
theorem C4_idempotent (e : Env) (mr : Nat) (last c₁ : Option Nat) (evs₁ : List Ev) (ab₁ : Bool)
    (h : update_status e mr last = .ok (c₁, evs₁, ab₁)) :
    idleCycle c₁ (update_status e mr c₁) := by
  rcases outcome_shape e mr last c₁ evs₁ ab₁ h with ⟨rfl, rfl⟩ | ⟨hd, hhd, rfl, hf⟩
  · rw [h]
    exact ⟨rfl, rfl⟩
  · obtain ⟨tl, hfe⟩ : ∃ tl, e.feed = hd :: tl := by
      cases hfee : e.feed with
      | nil => rw [hfee] at hhd; simp at hhd
      | cons a t =>
        rw [hfee] at hhd
        simp only [List.head?_cons, Option.some.injEq] at hhd
        exact ⟨t, by rw [hhd]⟩
    have hsecond : update_status e mr (some hd.id) = .ok (some hd.id, [], false) := by
      simp only [update_status]
      rw [if_pos hf, hfe, List.take_succ_cons, List.map_cons]
      rw [if_pos (List.mem_cons_self hd.id _)]
      rw [List.indexOf_cons_self]
      rfl
    rw [hsecond]
    exact ⟨rfl, rfl⟩

/-- Witness for C4: after a cold-start cycle on a one-post feed, a second
cycle forwards nothing and keeps the cursor. -/
theorem C4_idempotent_witness :
    idleCycle (some 1) (update_status (envOk [mkPost 1]) 50 (some 1)) :=
  C4_idempotent (envOk [mkPost 1]) 50 none (some 1)
    [Ev.send (status_str (check_status (envOk [mkPost 1]) (some (mkPost 1)))), Ev.setCursor 1]
    false (by decide)

/-- Claim C5: on a cold start (no prior cursor) over a non-empty feed of 20
posts with strictly descending ids, the cycle sends exactly one message —
the newest post's — and afterwards the cursor equals that post's id. -/
theorem C5_cold_start (e : Env) (mr : Nat) (hd : Post)
    (hf : e.fetchOk = true) (_hlen : e.feed.length = 20)
    (hhd : e.feed.head? = some hd)
    (hs : (e.feed.map Post.id).Pairwise (· > ·)) :
    update_status e mr none = .ok (some hd.id,
      [Ev.send (status_str (check_status e (some hd))), Ev.setCursor hd.id], false) ∧
    (e.feed.all fun p => decide (p.id ≤ hd.id)) = true := by
  obtain ⟨tl, hfe⟩ : ∃ tl, e.feed = hd :: tl := by
    cases hfee : e.feed with
    | nil => rw [hfee] at hhd; simp at hhd
    | cons a t =>
      rw [hfee] at hhd
      simp only [List.head?_cons, Option.some.injEq] at hhd
      exact ⟨t, by rw [hhd]⟩
  constructor
  · simp only [update_status]
    rw [if_pos hf, hfe, List.take_succ_cons]
  · rw [List.all_eq_true]
    intro q hq
    rw [hfe] at hq hs
    rw [List.map_cons] at hs
    have hrest := (List.pairwise_cons.mp hs).1
    rcases List.mem_cons.mp hq with rfl | hq
    · simp
    · exact decide_eq_true (Nat.le_of_lt (hrest q.id (List.mem_map_of_mem Post.id hq)))

/-- Witness for C5 on a concrete 20-post feed with ids `20, ..., 1`. -/
theorem C5_cold_start_witness :
    update_status (envOk (feedDesc 20)) 50 none = .ok (some (mkPost 20).id,
      [Ev.send (status_str (check_status (envOk (feedDesc 20)) (some (mkPost 20)))),
        Ev.setCursor (mkPost 20).id], false) ∧
    ((envOk (feedDesc 20)).feed.all fun p => decide (p.id ≤ (mkPost 20).id)) = true :=
  C5_cold_start (envOk (feedDesc 20)) 50 (mkPost 20) (by decide) (by decide) (by decide)
    (by decide)

/-- Claim C7, counterexample: with a feed of unique, newest-first ids
`[50, 40]` and the cursor at `100`, a bulk import rewinds the cursor to
`50 < 100` — the importer sets `lastPostId` to the feed head
unconditionally, so the claimed monotonicity fails for bulk import as
stated. -/
theorem C7_counterexample :
    ((envOk [mkPost 50, mkPost 40]).feed.map Post.id).Pairwise (· > ·) ∧
    (dig_update (envOk [mkPost 50, mkPost 40]) true 20 false (some 100) []).cursor = some 50 ∧
    50 < 100 := by
  decide

/-- Claim C7, amended: over a feed with unique ids ordered newest-first,
every sync-cycle operation (cold start, fast path, rollback forwarding)
only ever advances the cursor — the successive cursor values form a
non-decreasing chain from the current value, and the final cursor is no
smaller; the bulk import also never lowers the cursor provided the current
cursor does not exceed the feed head's id (the feed has not lost posts
newer than the cursor; without that proviso the import can rewind it). -/
theorem C7_amended (e : Env) (mr count : Nat) (all : Bool) (v : Nat)
    (stg0 : List (Nat × List String)) (c : Option Nat) (evs : List Ev) (ab : Bool)
    (hp : (e.feed.map Post.id).Pairwise (· > ·))
    (hu : update_status e mr (some v) = .ok (c, evs, ab)) :
    List.Chain' (· ≤ ·) (v :: cursorSets evs) ∧
    v ≤ c.getD v ∧
    (v ≤ (e.feed.head?).elim v (fun p => p.id) →
      v ≤ ((dig_update e true count all (some v) stg0).cursor).getD v) := by
  have hdig : v ≤ (e.feed.head?).elim v (fun p => p.id) →
      v ≤ ((dig_update e true count all (some v) stg0).cursor).getD v := by
    intro hd
    rcases dig_cursor_cases e count all (some v) stg0 with hc | ⟨hd', hhd, hc⟩
    · rw [hc]
      exact le_rfl
    · rw [hc]
      rw [hhd] at hd
      exact hd
  have hmain : List.Chain' (· ≤ ·) (v :: cursorSets evs) ∧ v ≤ c.getD v := by
    by_cases hf : e.fetchOk = true
    case neg =>
      rw [update_status, if_neg hf] at hu
      simp only [Except.ok.injEq, Prod.mk.injEq] at hu
      obtain ⟨hc, hevs, _⟩ := hu
      rw [← hc, ← hevs]
      exact ⟨List.chain'_singleton v, le_rfl⟩
    simp only [update_status] at hu
    rw [if_pos hf] at hu
    by_cases hin : v ∈ (e.feed.take 20).map Post.id
    · rw [if_pos hin, forwardChecked_eq, List.getLast?_reverse] at hu
      simp only [Except.ok.injEq, Prod.mk.injEq] at hu
      obtain ⟨hc, hevs, _⟩ := hu
      have hmt : (e.feed.take 20).map Post.id = (e.feed.map Post.id).take 20 :=
        List.map_take Post.id e.feed 20
      have hp20 : List.Pairwise (· > ·) ((e.feed.map Post.id).take 20) :=
        hp.sublist (List.take_sublist 20 _)
      have hvmem : v ∈ (e.feed.map Post.id).take 20 := hmt ▸ hin
      have hklt : ((e.feed.map Post.id).take 20).indexOf v <
          ((e.feed.map Post.id).take 20).length := List.indexOf_lt_length.mpr hvmem
      have hlt : ∀ x ∈ ((e.feed.map Post.id).take 20).take
          (((e.feed.map Post.id).take 20).indexOf v), v < x := by
        intro x hx
        have hg := pairwise_take_lt _ hp20 _ hklt x hx
        rw [List.indexOf_get hklt] at hg
        exact hg
      have hslice : ((e.feed.take 20).take (((e.feed.take 20).map Post.id).indexOf v)).map
          Post.id = ((e.feed.map Post.id).take 20).take
            (((e.feed.map Post.id).take 20).indexOf v) := by
        rw [List.map_take Post.id (e.feed.take 20), hmt]
      have hcs : cursorSets evs = (((e.feed.map Post.id).take 20).take
          (((e.feed.map Post.id).take 20).indexOf v)).reverse := by
        rw [← hevs, cursorSets_fastTriples, List.map_reverse, hslice]
      constructor
      · rw [hcs]
        apply chain_of_desc_above
        · exact hp20.sublist (List.take_sublist _ _)
        · exact fun x hx => Nat.le_of_lt (hlt x hx)
      · cases hh : ((e.feed.take 20).take (((e.feed.take 20).map Post.id).indexOf v)).head? with
        | none =>
          rw [hh] at hc
          rw [← hc]
          exact le_rfl
        | some st =>
          rw [hh] at hc
          rw [← hc]
          show v ≤ st.id
          apply Nat.le_of_lt
          apply hlt
          rw [← hslice]
          exact List.mem_map_of_mem Post.id (List.mem_of_mem_head? hh)
    · rw [if_neg hin] at hu
      cases hgss : get_statuses_since e mr (some v) with
      | error u =>
        rw [hgss] at hu
        simp only [Except.ok.injEq, Prod.mk.injEq] at hu
        obtain ⟨hc, hevs, _⟩ := hu
        rw [← hc, ← hevs]
        exact ⟨List.chain'_singleton v, le_rfl⟩
      | ok sts =>
        rw [hgss] at hu
        have hsts := gss_ok_eq e mr v sts hgss
        have habove : ∀ x ∈ sts, v < x := by
          intro x hx
          rw [hsts] at hx
          obtain ⟨p, hmem, rfl⟩ := List.mem_map.mp hx
          have hpin : p ∈ e.feed.takeWhile fun st => decide (v < st.id) :=
            List.Sublist.subset (List.take_sublist mr _) hmem
          have := @List.mem_takeWhile_imp Post (fun st => decide (v < st.id)) e.feed p hpin
          exact of_decide_eq_true this
        have hres : ∀ sid ∈ sts.reverse, ∃ q, get_status_by_id e sid = some q ∧ q.id = sid := by
          intro sid hsid
          apply resolve_of_mem
          rw [List.mem_reverse] at hsid
          rw [hsts] at hsid
          obtain ⟨p, hmem, rfl⟩ := List.mem_map.mp hsid
          exact List.mem_map_of_mem Post.id
            (List.Sublist.subset ((List.take_sublist _ _).trans (List.takeWhile_sublist _)) hmem)
        obtain ⟨hfst, hcsets⟩ := forwardByIds_ids e (some v) sts.reverse hres
        simp only [Except.ok.injEq, Prod.mk.injEq] at hu
        obtain ⟨hc, hevs, _⟩ := hu
        have hpw : sts.Pairwise (· > ·) := by
          rw [hsts]
          exact hp.sublist
            (List.Sublist.map Post.id ((List.take_sublist _ _).trans (List.takeWhile_sublist _)))
        constructor
        · rw [← hevs, hcsets]
          exact chain_of_desc_above v sts hpw (fun x hx => Nat.le_of_lt (habove x hx))
        · rw [← hc, hfst, List.getLast?_reverse]
          cases hh : sts.head? with
          | none => exact le_rfl
          | some s0 =>
            show v ≤ s0
            exact Nat.le_of_lt (habove s0 (List.mem_of_mem_head? hh))
  exact ⟨hmain.1, hmain.2, hdig⟩

/-- Witness for C7 (amended) at a one-post feed with the cursor already at
the head: the chain is trivial and neither operation lowers the cursor (the
bulk-import proviso holds here and is discharged concretely). -/
theorem C7_amended_witness :
    List.Chain' (· ≤ ·) (5 :: cursorSets []) ∧
    5 ≤ (some 5 : Option Nat).getD 5 ∧
    5 ≤ ((dig_update (envOk [mkPost 5]) true 0 false (some 5) []).cursor).getD 5 :=
  ⟨(C7_amended (envOk [mkPost 5]) 50 0 false 5 [] (some 5) [] false (by decide)
      (by decide)).1,
   (C7_amended (envOk [mkPost 5]) 50 0 false 5 [] (some 5) [] false (by decide)
      (by decide)).2.1,
   (C7_amended (envOk [mkPost 5]) 50 0 false 5 [] (some 5) [] false (by decide)
      (by decide)).2.2 (by decide)⟩

end TwitterDrasta
